import Mathlib

/-!
Shallow embedding of the STRP-MODBUS-MIRROR repository (two Python scripts:
`createSTcode.py` and `createjson.py`) and verification of its specification.

`createSTcode.py` reads I/O rows, reconciles each row's PLC tag against a
persistent per-project tag→register table, and emits assignment code, a
variable-import record set and an init block.  `createjson.py` merges sorted
(register, modbus-address) pairs into contiguous link blocks.
-/

namespace StrpMirror

/-! ### Python string helpers (models of `str.strip`, `str.upper`, `str.lower`) -/

/-- Model of Python `str.strip()` (remove surrounding whitespace). -/
def pyStrip (s : String) : String :=
  ⟨(((s.data.dropWhile Char.isWhitespace).reverse).dropWhile
      Char.isWhitespace).reverse⟩

/-- Model of Python `str.upper()` (ASCII case fold, as used on ASCII tags). -/
def pyUpper (s : String) : String := ⟨s.data.map Char.toUpper⟩

/-- Model of Python `str.lower()`. -/
def pyLower (s : String) : String := ⟨s.data.map Char.toLower⟩

/-- Model of Python `str.startswith`. -/
def strStartsWith (s p : String) : Bool := p.data.isPrefixOf s.data

/-- The single-quote character (code 39). -/
def squote : Char := Char.ofNat 39

/-- The double-quote character (code 34). -/
def dquote : Char := Char.ofNat 34

/-- Model of `rlocU.replace("%", "")`: remove every percent character. -/
def stripPercent (s : String) : String := ⟨s.data.filter (fun c => c != '%')⟩

/-! ### Helpers of `createSTcode.py` -/

/-- Characters kept by `re.sub(r"[^A-Za-z0-9_]", "_", ...)` in `st_safe`. -/
def keepIdChar (c : Char) : Bool :=
  ('A' ≤ c && c ≤ 'Z') || ('a' ≤ c && c ≤ 'z') || ('0' ≤ c && c ≤ '9') || c == '_'

/-- Model of `st_safe`: sanitize a name into an ST identifier
(`re.sub` non-identifier chars to `_`, guard a leading digit with `X_`,
default empty to `X`, uppercase).  First, Python `text[0].isdigit()`. -/
def headIsDigit (s : String) : Bool :=
  match s.data with
  | c :: _ => c.isDigit
  | [] => false

/-- Model of `st_safe` (continued): apply the substitution, the `X_` digit
guard, the `X` default and the uppercase. -/
def st_safe (text : String) : String :=
  let t : String := ⟨(pyStrip text).data.map (fun c => if keepIdChar c then c else '_')⟩
  pyUpper (if t != "" && headIsDigit t then "X_" ++ t else if t == "" then "X" else t)

/-- Model of `esc_comment`'s `.replace("*)", ")*")`: swap each occurrence,
scanning left to right without overlap. -/
def swapStarParen : List Char → List Char
  | '*' :: ')' :: cs => ')' :: '*' :: swapStarParen cs
  | c :: cs => c :: swapStarParen cs
  | [] => []

/-- Model of `esc_comment`: `(txt or "").replace("*)", ")*").strip()`. -/
def esc_comment (txt : String) : String := pyStrip ⟨swapStarParen txt.data⟩

/-- Digit value of a character in a given base, if valid. -/
def digitVal (base : Nat) (c : Char) : Option Nat :=
  let v : Option Nat :=
    if '0' ≤ c && c ≤ '9' then some (c.toNat - '0'.toNat)
    else if 'a' ≤ c && c ≤ 'z' then some (c.toNat - 'a'.toNat + 10)
    else if 'A' ≤ c && c ≤ 'Z' then some (c.toNat - 'A'.toNat + 10)
    else none
  match v with
  | some n => if n < base then some n else none
  | none => none

/-- Parse a nonempty digit string in a base (no separators). -/
def parseDigits (base : Nat) (cs : List Char) : Option Nat :=
  match cs with
  | [] => none
  | _ =>
    cs.foldl (fun acc c =>
      match acc, digitVal base c with
      | some n, some d => some (n * base + d)
      | _, _ => none) (some 0)

/-- Model of the unsigned part of Python `int(s, 0)`: `0x`/`0o`/`0b` prefixes
select the base, a bare leading zero is only legal when the whole token is
zeros, otherwise the token is decimal. -/
def parseUnsignedBase0 (cs : List Char) : Option Nat :=
  match cs with
  | '0' :: c :: rest =>
    if c == 'x' || c == 'X' then parseDigits 16 rest
    else if c == 'o' || c == 'O' then parseDigits 8 rest
    else if c == 'b' || c == 'B' then parseDigits 2 rest
    else if (c :: rest).all (fun d => d == '0') then some 0
    else none
  | cs => parseDigits 10 cs

/-- Model of Python `int(val, 0)` (sign, base prefixes), returning `none`
where Python raises `ValueError`. -/
def pyIntBase0 (s : String) : Option Int :=
  match (pyStrip s).data with
  | '+' :: rest => (parseUnsignedBase0 rest).map (fun n => (n : Int))
  | '-' :: rest => (parseUnsignedBase0 rest).map (fun n => -(n : Int))
  | rest => (parseUnsignedBase0 rest).map (fun n => (n : Int))

/-- Model of `st_literal`: format an initial value for data type
BOOL/INT/WORD/STRING (source lines 47–77 of `createSTcode.py`).  The BOOL
branch returns the Python ints 1/0, rendered here as their interpolation. -/
def st_literal (dtyp : String) (val0 : String) : String :=
  let val := pyStrip val0
  if dtyp = "BOOL" then
    if pyUpper val ∈ (["1", "TRUE", "T", "YES"] : List String) then "1" else "0"
  else if dtyp = "STRING" then
    -- escaped = val.replace("'", "''"); return f"\"{escaped}\""
    ⟨dquote :: (val.data.foldr (fun c acc =>
        if c = squote then squote :: squote :: acc else c :: acc) [dquote])⟩
  else if dtyp = "INT" then
    toString ((pyIntBase0 val).getD 0)
  else if dtyp = "WORD" then
    toString ((pyIntBase0 val).getD 0)
  else if val = "" then "0" else val

/-! ### Python-dict model (insertion-ordered association list) -/

/-- Python dict lookup `d[k]` / `k in d` on an insertion-ordered list. -/
def dictGet {κ α : Type} [DecidableEq κ] : List (κ × α) → κ → Option α
  | [], _ => none
  | p :: d, k => if p.1 = k then some p.2 else dictGet d k

/-- Python dict assignment `d[k] = v`: update in place when the key exists,
otherwise append at the end. -/
def dictSet {κ α : Type} [DecidableEq κ] : List (κ × α) → κ → α → List (κ × α)
  | [], k, v => [(k, v)]
  | p :: d, k, v => if p.1 = k then (k, v) :: d else p :: dictSet d k v

/-! ### Data model of the main row loop -/

/-- One input row, with the cell values of the seven required columns. -/
structure RowRec where
  proj : String
  tag : String
  reg : String
  name : String
  typ : String
  desc : String
  init : String
deriving DecidableEq

/-- A conflict diagnostic (`⚠  {plc_raw}: overriding CSV {rloc_raw} with
master {io2r[proj][plcU]}`): its three data are the raw tag, the row's raw
register and the table's register. -/
structure Conflict where
  tag : String
  rowReg : String
  tableReg : String
deriving DecidableEq

/-- The tuple stored in `P["rvars"][r_sym]`: `(r_sym, rloc, tag, typ, init)`. -/
structure RVar where
  r_sym : String
  rloc : String
  tag : String
  typ : String
  init : String
deriving DecidableEq

/-- Per-project output accumulator `{"map": [...], "rvars": {...}}`. -/
structure ProjOut where
  map : List String
  rvars : List (String × RVar)
deriving DecidableEq

/-- Whole-run state: the per-project master maps `io2r`, the per-project
output accumulators `projects`, and the emitted diagnostics. -/
structure RunState where
  io2r : String → List (String × String)
  projects : String → ProjOut
  conflicts : List Conflict
  skips : List (String × String × String)

/-! ### Normalized row fields (source lines 125–141) -/

/-- `typ = row[type].strip().upper()`. -/
def rowTyp (row : RowRec) : String := pyUpper (pyStrip row.typ)

/-- `proj = (row[proj] or "DEFAULT").strip()`. -/
def rowProj (row : RowRec) : String :=
  pyStrip (if row.proj = "" then "DEFAULT" else row.proj)

/-- `plc_raw = (row[tag] or "").strip()`. -/
def rowPlcRaw (row : RowRec) : String := pyStrip row.tag

/-- `rloc_raw = (row[reg] or "").strip()`. -/
def rowRegRaw (row : RowRec) : String := pyStrip row.reg

/-- `plcU = plc_raw.upper()`. -/
def rowPlcU (row : RowRec) : String := pyUpper (rowPlcRaw row)

/-- `rlocU = rloc_raw.upper()` (the row's declared register, normalized). -/
def rowRegU (row : RowRec) : String := pyUpper (rowRegRaw row)

/-- `name = (row[name] or "").strip() or plc_raw`. -/
def rowName (row : RowRec) : String :=
  if pyStrip row.name = "" then rowPlcRaw row else pyStrip row.name

/-- `tag = st_safe(name)`. -/
def rowTag (row : RowRec) : String := st_safe (rowName row)

/-- `desc = esc_comment(row[desc])`. -/
def rowDesc (row : RowRec) : String := esc_comment row.desc

/-- `init = (row[init] or "").strip() or "0"`. -/
def rowInitV (row : RowRec) : String :=
  if pyStrip row.init = "" then "0" else pyStrip row.init

/-- `typ in ("BOOL", "INT", "WORD", "STRING")` (source line 126). -/
def recognizedType (typ : String) : Bool :=
  typ == "BOOL" || typ == "INT" || typ == "WORD" || typ == "STRING"

/-- `plcU.startswith(("%I", "%AI", "%R", "%M"))` (source line 160). -/
def inArea (plcU : String) : Bool :=
  strStartsWith plcU "%I" || strStartsWith plcU "%AI" ||
    strStartsWith plcU "%R" || strStartsWith plcU "%M"

/-- `plcU.startswith(("%Q", "%AQ"))` (source line 174). -/
def outArea (plcU : String) : Bool :=
  strStartsWith plcU "%Q" || strStartsWith plcU "%AQ"

/-! ### The reconciliation step (source lines 143–152) -/

/-- Decide the definitive register for a row: the if/elif pair at lines
144–149 followed by the learning step at lines 151–152.  Returns the
resolved `rlocU`, the optional conflict diagnostic and the updated master
map. -/
def reconcile (master : List (String × String))
    (plc_raw rloc_raw plcU rlocU : String) :
    String × Option Conflict × List (String × String) :=
  match dictGet master plcU with
  | some v =>
    if rlocU = "" then (v, none, master)
    else if rlocU ≠ v then (v, some ⟨plc_raw, rloc_raw, v⟩, master)
    else (rlocU, none, master)
  | none =>
    (rlocU, none, if rlocU ≠ "" then dictSet master plcU rlocU else master)

/-- The area dispatch (source lines 159–192): returns the `rvars` insertion
(if any), the `map` lines appended and whether a skip warning was printed. -/
def dispatch (typ tag r_sym rlocU init desc plcU : String) :
    Option (String × RVar) × List String × Bool :=
  if inArea plcU then
    if r_sym = "" then (none, [], true)
    else if typ = "BOOL" then
      (some (r_sym, ⟨r_sym, rlocU, tag, typ, init⟩),
       [tag ++ " := " ++ r_sym ++ " <> 0; (* " ++ desc ++ " *)"], false)
    else
      (some (r_sym, ⟨r_sym, rlocU, tag, typ, init⟩),
       [tag ++ " := " ++ r_sym ++ "; (* " ++ desc ++ " *)"], false)
  else if outArea plcU then
    if r_sym = "" then (none, [], true)
    else if typ = "BOOL" then
      (some (r_sym, ⟨r_sym, rlocU, tag, typ, init⟩),
       ["IF " ++ tag ++ " THEN",
        "   " ++ r_sym ++ " := 1;",
        "ELSE",
        "   " ++ r_sym ++ " := 0;",
        "END_IF; (* " ++ desc ++ " *)"], false)
    else
      (some (r_sym, ⟨r_sym, rlocU, tag, typ, init⟩),
       [r_sym ++ " := " ++ tag ++ "; (* " ++ desc ++ " *)"], false)
  else (none, [], false)

/-- Apply a dispatch result to a project's accumulator. -/
def applyDispatch (P : ProjOut)
    (d : Option (String × RVar) × List String × Bool) : ProjOut :=
  { map := P.map ++ d.2.1,
    rvars := match d.1 with
             | some kv => dictSet P.rvars kv.1 kv.2
             | none => P.rvars }

/-- The reconciliation of a row against the current state. -/
def rowResolved (s : RunState) (row : RowRec) :
    String × Option Conflict × List (String × String) :=
  reconcile (s.io2r (rowProj row)) (rowPlcRaw row) (rowRegRaw row)
    (rowPlcU row) (rowRegU row)

/-- The definitive register decided for a row. -/
def rowRloc (s : RunState) (row : RowRec) : String := (rowResolved s row).1

/-- The conflict diagnostic a row emits, if any. -/
def rowConflict (s : RunState) (row : RowRec) : Option Conflict :=
  (rowResolved s row).2.1

/-- The project's master map after reconciling a row. -/
def rowMaster (s : RunState) (row : RowRec) : List (String × String) :=
  (rowResolved s row).2.2

/-- `r_sym = (rlocU or "").replace("%", "")` (source line 155). -/
def rowRsym (s : RunState) (row : RowRec) : String :=
  stripPercent (rowRloc s row)

/-- The dispatch of a row with its normalized fields. -/
def rowDispatch (s : RunState) (row : RowRec) :
    Option (String × RVar) × List String × Bool :=
  dispatch (rowTyp row) (rowTag row) (rowRsym s row) (rowRloc s row)
    (rowInitV row) (rowDesc row) (rowPlcU row)

/-- One iteration of the main row loop (source lines 124–192).  Rows whose
type is not recognized are skipped before reconciliation. -/
def processRow (s : RunState) (row : RowRec) : RunState :=
  if recognizedType (rowTyp row) then
    { io2r := fun p => if p = rowProj row then rowMaster s row else s.io2r p,
      projects := fun p =>
        if p = rowProj row then
          applyDispatch (s.projects (rowProj row)) (rowDispatch s row)
        else s.projects p,
      conflicts := s.conflicts ++ (rowConflict s row).toList,
      skips := s.skips ++
        (if (rowDispatch s row).2.2 then
          [(rowProj row, rowPlcRaw row, rowTag row)] else []) }
  else s

/-- The whole row loop. -/
def processRows (s : RunState) (rows : List RowRec) : RunState :=
  rows.foldl processRow s

/-! ### Persistence of the master maps (source lines 94–106 and 235–241) -/

/-- Python string comparison (code-point lexicographic, shorter prefix
first): non-strict, on character lists. -/
def strLeB : List Char → List Char → Bool
  | [], _ => true
  | _ :: _, [] => false
  | a :: as, b :: bs =>
    if a.toNat < b.toNat then true
    else if b.toNat < a.toNat then false
    else strLeB as bs

/-- Python string comparison, strict, on character lists. -/
def strLtB : List Char → List Char → Bool
  | [], [] => false
  | [], _ :: _ => true
  | _ :: _, [] => false
  | a :: as, b :: bs =>
    if a.toNat < b.toNat then true
    else if b.toNat < a.toNat then false
    else strLtB as bs

/-- Python `a <= b` on strings. -/
def strLe (a b : String) : Bool := strLeB a.data b.data

/-- Python `a < b` on strings. -/
def strLt (a b : String) : Bool := strLtB a.data b.data

/-- One step of Python tuple comparison: compare a component, fall through
to the rest on equality. -/
def lexB (x y : String) (rest : Bool) : Bool :=
  if x = y then rest else strLt x y

/-- Python tuple comparison on two-field records, as used by
`sorted(mapping.items())`. -/
def pairLe (a b : String × String) : Bool :=
  lexB a.1 b.1 (strLe a.2 b.2)

/-- Stable insertion into a sorted list (used to model Python `sorted`). -/
def insertLe {α : Type} (le : α → α → Bool) (x : α) : List α → List α
  | [] => [x]
  | y :: ys => if le x y then x :: y :: ys else y :: insertLe le x ys

/-- Insertion sort by a boolean comparison; with an antisymmetric total
order this computes exactly Python `sorted`. -/
def sortBy {α : Type} (le : α → α → Bool) : List α → List α
  | [] => []
  | x :: xs => insertLe le x (sortBy le xs)

/-- The rows written to a project's map file: `sorted(mapping.items())`. -/
def savedPairs (d : List (String × String)) : List (String × String) :=
  sortBy pairLe d

/-- Model of `ensure_loaded`'s dict comprehension: keep rows with both cells
nonempty, strip+uppercase each cell, later duplicates overwriting. -/
def loadMap (rows : List (String × String)) : List (String × String) :=
  rows.foldl (fun d pr =>
    if pr.1 ≠ "" ∧ pr.2 ≠ "" then
      dictSet d (pyUpper (pyStrip pr.1)) (pyUpper (pyStrip pr.2))
    else d) []

/-! ### Header check (source lines 113–122) -/

/-- `re.sub(r"\s+", "", h).lower()`: drop all whitespace, lowercase. -/
def normHeader (h : String) : String :=
  pyLower ⟨h.data.filter (fun c => !c.isWhitespace)⟩

/-- The `NEEDED` table of required columns (loose keys). -/
def NEEDED : List (String × String) :=
  [("proj", "projectname"), ("tag", "plctag"), ("reg", "registerplc"),
   ("name", "name"), ("type", "datatype"), ("desc", "description"),
   ("init", "initialvalue")]

/-- `missing = [k for k in NEEDED if NEEDED[k] not in hmap]`. -/
def missingCols (headers : List String) : List String :=
  NEEDED.filterMap (fun kv =>
    if kv.2 ∈ headers.map normHeader then none else some kv.1)

/-- The guarded run: raise `SystemExit` on missing columns (producing no
state and no outputs), otherwise process all rows. -/
def runCsv (headers : List String) (rows : List RowRec) (s : RunState) :
    Except String RunState :=
  if missingCols headers = [] then Except.ok (processRows s rows)
  else Except.error
    ("❌ CSV missing columns: " ++ String.intercalate ", " (missingCols headers))

/-! ### Output writers (source lines 195–232) -/

/-- The fixed PME import header row. -/
def IMPORT_HEADER : List String :=
  ["Name", "DataType", "Description", "DataTypeID", "Retentive", "Force2",
   "DisplayFormat", "ArrayDimension1", "ArrayDimension2", "Publish",
   "MarkAsUsed", "MaxLength", "InitialValue", "DataSource",
   "DataSourceClsid", "IOAddress", "IOAddressOffset", "IOAddressAlias",
   "Input_VTL", "Output_VTL", "DisplayName", "OPCAccessLevel",
   "extra_properties"]

/-- The fixed PME import template row. -/
def IMPORT_TEMPLATE : List String :=
  ["", "WORD", "", "", "YES", "", "Decimal",
   "0", "0", "External Read/Write", "NO", "16", "0",
   "Controller", "\x7b98D70480-4881-11D4-9F26-0050DA19DE4A\x7d",
   "", "", "", "", "", "", "Private", ""]

/-- Build one import record from an rvar tuple (source lines 207–220):
collapse the type to WORD unless INT or STRING, then override template
fields 0, 1, 2, 12 and 15. -/
def buildImportRow (v : RVar) : List String :=
  let dt := if v.typ = "INT" then "INT"
            else if v.typ = "STRING" then "STRING" else "WORD"
  ((((IMPORT_TEMPLATE.set 0 v.r_sym).set 1 dt).set 2
      ("mirror of " ++ v.tag)).set 12 v.init).set 15 v.rloc

/-- Python tuple comparison on rvar tuples, as used by
`sorted(blk["rvars"].values())`. -/
def rvarLe (a b : RVar) : Bool :=
  lexB a.r_sym b.r_sym (lexB a.rloc b.rloc (lexB a.tag b.tag
    (lexB a.typ b.typ (strLe a.init b.init))))

/-- `sorted(blk["rvars"].values())`. -/
def sortedRVars (P : ProjOut) : List RVar :=
  sortBy rvarLe (P.rvars.map Prod.snd)

/-- The import records written to `<proj>_Rvars.csv` (after the header). -/
def importRows (P : ProjOut) : List (List String) :=
  (sortedRVars P).map buildImportRow

/-- One preset line of the init block (source line 228). -/
def initLineOf (v : RVar) : String :=
  "   " ++ v.r_sym ++ " := " ++ st_literal v.typ v.init ++ "; (* " ++
    v.tag ++ " *)"

/-- The content of `<proj>_init.st` as a line list (source lines 225–230). -/
def initLines (P : ProjOut) : List String :=
  "(* AUTOGEN REGISTER PRESETS — call once on power-up *)" ::
    (sortedRVars P).map initLineOf

/-- The content of `<proj>_map.st` (source line 198). -/
def mapFileText (P : ProjOut) : String :=
  "(* AUTOGEN MAPPINGS *)\n" ++ String.intercalate "\n" P.map

/-! ### `createjson.py`: contiguous-range merger (source lines 55–69) -/

/-- One link block `{"Plc": f"R{reg:05}", "Modbus": f"{mb}", "Count": cnt}`. -/
structure Link where
  Plc : String
  Modbus : String
  Count : Nat
deriving DecidableEq

/-- Python's `f"{n:05}"` on a natural number. -/
def pad5 (n : Nat) : String :=
  let s := toString n
  if s.length < 5 then ⟨List.replicate (5 - s.length) '0'⟩ ++ s else s

/-- The merge loop in one left-to-right scan: extend the current block
`(reg_start, mb_start, cnt)` while both coordinates increment by exactly 1
(the inner while of lines 60–63), emit it and restart at the breaking pair
otherwise. -/
def mergeRunsGo (reg_start mb_start cnt : Nat) :
    List (Nat × Nat) → List (Nat × Nat × Nat)
  | [] => [(reg_start, mb_start, cnt)]
  | p :: rest =>
    if p.1 = reg_start + cnt ∧ p.2 = mb_start + cnt then
      mergeRunsGo reg_start mb_start (cnt + 1) rest
    else (reg_start, mb_start, cnt) :: mergeRunsGo p.1 p.2 1 rest

/-- The outer while loop (lines 57–69), on numeric triples (start register,
start address, count). -/
def mergeRuns : List (Nat × Nat) → List (Nat × Nat × Nat)
  | [] => []
  | p :: rest => mergeRunsGo p.1 p.2 1 rest

/-- The emitted link blocks, with the formatting done in the append. -/
def links (rows : List (Nat × Nat)) : List Link :=
  (mergeRuns rows).map (fun b =>
    { Plc := "R" ++ pad5 b.1, Modbus := toString b.2.1, Count := b.2.2 })

/-- Decode a block list back to the pair sequence it encodes. -/
def expandRuns : List (Nat × Nat × Nat) → List (Nat × Nat)
  | [] => []
  | b :: bs =>
    (List.range b.2.2).map (fun i => (b.1 + i, b.2.1 + i)) ++ expandRuns bs

/-! ### Predicates used by the idempotence development -/

/-- A row is stable for a table map when re-processing it cannot change the
table: unrecognized type, no declared register, or its tag already present. -/
def rowStable (t : String → List (String × String)) (row : RowRec) : Prop :=
  recognizedType (rowTyp row) = false ∨ rowRegU row = "" ∨
    (dictGet (t (rowProj row)) (rowPlcU row)).isSome = true

/-- A row is clean for a table map when re-processing it cannot emit a
conflict: unrecognized type, no declared register, or the table already
holds exactly the declared register. -/
def rowClean (t : String → List (String × String)) (row : RowRec) : Prop :=
  recognizedType (rowTyp row) = false ∨ rowRegU row = "" ∨
    dictGet (t (rowProj row)) (rowPlcU row) = some (rowRegU row)

/-- Well-formedness of an rvars dict: keys are pairwise distinct and every
stored tuple carries its own key as its register symbol.  This holds for
the accumulators the run builds (they start empty and only ever insert a
tuple under its own `r_sym`). -/
def rvarsWF (P : ProjOut) : Prop :=
  (P.rvars.map Prod.fst).Nodup ∧ ∀ kv ∈ P.rvars, kv.2.r_sym = kv.1

/-! ### Spec-side formulations used to compare against `st_literal` -/

/-- Follows the spec's words for the STRING case: wrap the value in the
quoting character `q` with every embedded occurrence of that same character
doubled (SQL-style escaping). -/
def specQuoteWrap (q : Char) (s : String) : String :=
  ⟨q :: (s.data.foldr (fun c acc => if c = q then q :: q :: acc else c :: acc) [q])⟩

/-- Double every occurrence of the character `q` in a string (no wrapping). -/
def doubleChar (q : Char) (s : String) : String :=
  ⟨(s.data.map (fun c => if c = q then [q, q] else [c])).flatten⟩

/-! ### Concrete fixtures used by witnesses and counterexamples -/

/-- A run state with all tables and accumulators empty. -/
def emptyState : RunState := ⟨fun _ => [], fun _ => ⟨[], []⟩, [], []⟩

/-- A one-entry master table. -/
def demoTable : List (String × String) := [("%I0001", "%R01017")]

/-- A run state whose every project starts from `demoTable`. -/
def demoState : RunState := ⟨fun _ => demoTable, fun _ => ⟨[], []⟩, [], []⟩

/-- A row that declares a register conflicting with `demoTable`. -/
def demoRowConflict : RowRec := ⟨"P1", "%I0001", "%R01020", "Pump", "WORD", "d", "5"⟩

/-- A row whose register agrees with `demoTable`. -/
def demoRowOk : RowRec := ⟨"P1", "%I0001", "%R01017", "Pump", "WORD", "d", "5"⟩

/-- A row with a tag new to `demoTable` and a declared register. -/
def demoRowNew : RowRec := ⟨"P1", "%I0002", "%R01021", "Fan", "INT", "", "1"⟩

/-- A row with a tag new to `demoTable` and no declared register. -/
def demoRowNoReg : RowRec := ⟨"P1", "%I0003", "", "Valve", "BOOL", "", ""⟩

/-- A row whose tag has no recognized address-area marker. -/
def demoRowPlain : RowRec := ⟨"P1", "PLCTAG9", "%R02000", "Motor", "WORD", "", ""⟩

/-- A second row resolving to the same register as `demoRowOk` but with
different symbolic data (for the last-row-wins property). -/
def demoRowOk2 : RowRec := ⟨"P1", "%I0001", "%R01017", "Pump2", "WORD", "d", "7"⟩

/-! ## Lemmas about the dict model -/

theorem dictGet_dictSet_self {κ α : Type} [DecidableEq κ]
    (d : List (κ × α)) (k : κ) (v : α) :
    dictGet (dictSet d k v) k = some v := by
  induction d with
  | nil => simp [dictSet, dictGet]
  | cons p d ih =>
    by_cases h : p.1 = k
    · simp [dictSet, dictGet, h]
    · simp [dictSet, dictGet, h, ih]

theorem dictGet_dictSet_ne {κ α : Type} [DecidableEq κ]
    (d : List (κ × α)) {k k2 : κ} (v : α) (h : k2 ≠ k) :
    dictGet (dictSet d k v) k2 = dictGet d k2 := by
  induction d with
  | nil => simp [dictSet, dictGet, Ne.symm h]
  | cons p d ih =>
    by_cases hp : p.1 = k
    · simp [dictSet, dictGet, hp, Ne.symm h, h]
    · simp [dictSet, dictGet, hp, ih]

theorem dictGet_eq_none_iff {κ α : Type} [DecidableEq κ]
    (d : List (κ × α)) (k : κ) :
    dictGet d k = none ↔ k ∉ d.map Prod.fst := by
  induction d with
  | nil => simp [dictGet]
  | cons p d ih =>
    by_cases h : p.1 = k
    · simp [dictGet, h]
    · simp [dictGet, h, ih, Ne.symm h]

theorem dictSet_of_get_none {κ α : Type} [DecidableEq κ]
    {d : List (κ × α)} {k : κ} (v : α) (h : dictGet d k = none) :
    dictSet d k v = d ++ [(k, v)] := by
  induction d with
  | nil => simp [dictSet]
  | cons p d ih =>
    rw [dictGet] at h
    by_cases hp : p.1 = k
    · simp [hp] at h
    · simp [hp] at h
      simp [dictSet, hp, ih h]

theorem mem_of_dictGet_some {κ α : Type} [DecidableEq κ]
    {d : List (κ × α)} {k : κ} {v : α} (h : dictGet d k = some v) :
    (k, v) ∈ d := by
  induction d with
  | nil => simp [dictGet] at h
  | cons p d ih =>
    rw [dictGet] at h
    by_cases hp : p.1 = k
    · simp [hp] at h
      rcases p with ⟨pk, pv⟩
      simp only at hp h
      subst hp
      subst h
      exact List.mem_cons_self _ _
    · simp [hp] at h
      exact List.mem_cons_of_mem _ (ih h)

theorem dictGet_some_of_mem_nodup {κ α : Type} [DecidableEq κ]
    {d : List (κ × α)} (hn : (d.map Prod.fst).Nodup) {k : κ} {v : α}
    (hm : (k, v) ∈ d) : dictGet d k = some v := by
  induction d with
  | nil => simp at hm
  | cons p d ih =>
    rw [List.map_cons, List.nodup_cons] at hn
    rcases List.mem_cons.1 hm with heq | hmem
    · rw [dictGet, ← heq]
      simp
    · have hk : k ∈ d.map Prod.fst := List.mem_map_of_mem Prod.fst hmem
      have hp : p.1 ≠ k := fun hc => hn.1 (hc ▸ hk)
      rw [dictGet, if_neg hp]
      exact ih hn.2 hmem

theorem keys_dictSet {κ α : Type} [DecidableEq κ]
    (d : List (κ × α)) (k : κ) (v : α) :
    (dictSet d k v).map Prod.fst =
      if k ∈ d.map Prod.fst then d.map Prod.fst
      else d.map Prod.fst ++ [k] := by
  induction d with
  | nil => simp [dictSet]
  | cons p d ih =>
    by_cases hp : p.1 = k
    · simp [dictSet, hp]
    · by_cases hk : k ∈ d.map Prod.fst
      · simp [dictSet, hp, hk, Ne.symm hp, ih]
      · simp [dictSet, hp, hk, Ne.symm hp, ih]

theorem nodup_keys_dictSet {κ α : Type} [DecidableEq κ]
    {d : List (κ × α)} (hn : (d.map Prod.fst).Nodup) (k : κ) (v : α) :
    ((dictSet d k v).map Prod.fst).Nodup := by
  rw [keys_dictSet]
  by_cases hk : k ∈ d.map Prod.fst
  · simpa [hk] using hn
  · simp only [hk, if_false]
    rw [List.nodup_append]
    refine ⟨hn, List.nodup_singleton k, ?_⟩
    intro a ha hb
    simp only [List.mem_singleton] at hb
    exact hk (hb ▸ ha)

theorem reconcile_master_of_some {master : List (String × String)}
    {plcU v : String} (plc_raw rloc_raw rlocU : String)
    (h : dictGet master plcU = some v) :
    (reconcile master plc_raw rloc_raw plcU rlocU).2.2 = master := by
  simp only [reconcile, h]
  split_ifs <;> rfl

theorem reconcile_some_empty {master : List (String × String)}
    {plcU v : String} (plc_raw rloc_raw : String)
    (h : dictGet master plcU = some v) :
    reconcile master plc_raw rloc_raw plcU "" = (v, none, master) := by
  simp [reconcile, h]

theorem reconcile_some_match {master : List (String × String)}
    {plcU v rlocU : String} (plc_raw rloc_raw : String)
    (h : dictGet master plcU = some v) (heq : rlocU = v) :
    reconcile master plc_raw rloc_raw plcU rlocU = (rlocU, none, master) := by
  simp [reconcile, h, heq]

theorem reconcile_some_conflict {master : List (String × String)}
    {plcU v rlocU : String} (plc_raw rloc_raw : String)
    (h : dictGet master plcU = some v) (hne : rlocU ≠ "") (hnv : rlocU ≠ v) :
    reconcile master plc_raw rloc_raw plcU rlocU =
      (v, some ⟨plc_raw, rloc_raw, v⟩, master) := by
  simp [reconcile, h, hne, hnv]

theorem reconcile_none_empty {master : List (String × String)}
    {plcU : String} (plc_raw rloc_raw : String)
    (h : dictGet master plcU = none) :
    reconcile master plc_raw rloc_raw plcU "" = ("", none, master) := by
  simp [reconcile, h]

theorem reconcile_none_decl {master : List (String × String)}
    {plcU rlocU : String} (plc_raw rloc_raw : String)
    (h : dictGet master plcU = none) (hne : rlocU ≠ "") :
    reconcile master plc_raw rloc_raw plcU rlocU =
      (rlocU, none, dictSet master plcU rlocU) := by
  simp [reconcile, h, hne]

theorem reconcile_get_mono {master : List (String × String)}
    {k v : String} (plc_raw rloc_raw plcU rlocU : String)
    (h : dictGet master k = some v) :
    dictGet (reconcile master plc_raw rloc_raw plcU rlocU).2.2 k = some v := by
  cases hm : dictGet master plcU with
  | some w =>
    rw [reconcile_master_of_some plc_raw rloc_raw rlocU hm]
    exact h
  | none =>
    by_cases hne : rlocU = ""
    · subst hne
      rw [reconcile_none_empty plc_raw rloc_raw hm]
      exact h
    · rw [reconcile_none_decl plc_raw rloc_raw hm hne]
      have hk : k ≠ plcU := by
        intro hc
        rw [hc, hm] at h
        cases h
      rw [dictGet_dictSet_ne master rlocU hk]
      exact h

theorem dictGet_eq_of_perm {κ α : Type} [DecidableEq κ]
    {d1 d2 : List (κ × α)} (h : d1.Perm d2)
    (hn : (d1.map Prod.fst).Nodup) (k : κ) :
    dictGet d1 k = dictGet d2 k := by
  cases hd : dictGet d1 k with
  | some v =>
    have hn2 : (d2.map Prod.fst).Nodup := ((h.map Prod.fst).nodup_iff).1 hn
    exact (dictGet_some_of_mem_nodup hn2 (h.mem_iff.1 (mem_of_dictGet_some hd))).symm
  | none =>
    symm
    rw [dictGet_eq_none_iff] at hd ⊢
    exact fun hk => hd ((h.map Prod.fst).mem_iff.2 hk)

/-! ## Lemmas about the row loop -/

theorem processRows_nil (s : RunState) : processRows s [] = s := rfl

theorem processRows_cons (s : RunState) (r : RowRec) (rs : List RowRec) :
    processRows s (r :: rs) = processRows (processRow s r) rs := rfl

theorem processRow_not_rec {s : RunState} {row : RowRec}
    (h : recognizedType (rowTyp row) = false) : processRow s row = s := by
  simp [processRow, h]

theorem processRow_io2r_rec {s : RunState} {row : RowRec}
    (h : recognizedType (rowTyp row) = true) :
    (processRow s row).io2r =
      fun p => if p = rowProj row then rowMaster s row else s.io2r p := by
  simp [processRow, h]

theorem processRow_projects_rec {s : RunState} {row : RowRec}
    (h : recognizedType (rowTyp row) = true) :
    (processRow s row).projects =
      fun p => if p = rowProj row then
          applyDispatch (s.projects (rowProj row)) (rowDispatch s row)
        else s.projects p := by
  simp [processRow, h]

theorem processRow_conflicts (s : RunState) (row : RowRec) :
    (processRow s row).conflicts = s.conflicts ++
      (if recognizedType (rowTyp row) = true then (rowConflict s row).toList
       else []) := by
  by_cases h : recognizedType (rowTyp row) = true
  · simp [processRow, h]
  · rw [Bool.not_eq_true] at h
    simp [processRow, h]

theorem rowMaster_eq (s : RunState) (row : RowRec)
    (h : rowRegU row = "" ∨
      (dictGet (s.io2r (rowProj row)) (rowPlcU row)).isSome = true) :
    rowMaster s row = s.io2r (rowProj row) := by
  unfold rowMaster rowResolved
  cases hm : dictGet (s.io2r (rowProj row)) (rowPlcU row) with
  | some v =>
    rw [reconcile_master_of_some (rowPlcRaw row) (rowRegRaw row) (rowRegU row) hm]
  | none =>
    rcases h with h | h
    · rw [h, reconcile_none_empty (rowPlcRaw row) (rowRegRaw row) hm]
    · rw [hm] at h
      cases h

theorem processRow_get_mono {s : RunState} {row : RowRec} {p k v : String}
    (h : dictGet (s.io2r p) k = some v) :
    dictGet ((processRow s row).io2r p) k = some v := by
  by_cases hr : recognizedType (rowTyp row) = true
  · rw [processRow_io2r_rec hr]
    by_cases hp : p = rowProj row
    · subst hp
      simp only [eq_self_iff_true, if_true]
      unfold rowMaster rowResolved
      exact reconcile_get_mono _ _ _ _ h
    · simp only [if_neg hp]
      exact h
  · rw [Bool.not_eq_true] at hr
    rw [processRow_not_rec hr]
    exact h

theorem processRows_get_mono {p k v : String} (rows : List RowRec) :
    ∀ {s : RunState}, dictGet (s.io2r p) k = some v →
      dictGet ((processRows s rows).io2r p) k = some v := by
  induction rows with
  | nil => intro s h; exact h
  | cons r rs ih =>
    intro s h
    rw [processRows_cons]
    exact ih (processRow_get_mono h)

/-! ## Stability: a processed row can no longer change the table -/

theorem rowStable_after (s : RunState) (row : RowRec) :
    rowStable (processRow s row).io2r row := by
  by_cases hr : recognizedType (rowTyp row) = true
  · by_cases hreg : rowRegU row = ""
    · exact Or.inr (Or.inl hreg)
    · refine Or.inr (Or.inr ?_)
      rw [processRow_io2r_rec hr]
      simp only [eq_self_iff_true, if_true]
      unfold rowMaster rowResolved
      cases hm : dictGet (s.io2r (rowProj row)) (rowPlcU row) with
      | some v =>
        rw [reconcile_master_of_some (rowPlcRaw row) (rowRegRaw row)
          (rowRegU row) hm, hm]
        rfl
      | none =>
        rw [reconcile_none_decl (rowPlcRaw row) (rowRegRaw row) hm hreg]
        simp [dictGet_dictSet_self]
  · rw [Bool.not_eq_true] at hr
    exact Or.inl hr

theorem rowStable_mono {s : RunState} {row r2 : RowRec}
    (h : rowStable s.io2r row) : rowStable (processRow s r2).io2r row := by
  rcases h with h | h | h
  · exact Or.inl h
  · exact Or.inr (Or.inl h)
  · refine Or.inr (Or.inr ?_)
    obtain ⟨v, hv⟩ := Option.isSome_iff_exists.1 h
    rw [processRow_get_mono hv]
    rfl

theorem processRows_stable_mono (rows : List RowRec) :
    ∀ {s : RunState} {row : RowRec}, rowStable s.io2r row →
      rowStable (processRows s rows).io2r row := by
  induction rows with
  | nil => intro s row h; exact h
  | cons r rs ih =>
    intro s row h
    rw [processRows_cons]
    exact ih (rowStable_mono h)

theorem processRow_io2r_of_stable {s : RunState} {row : RowRec}
    (h : rowStable s.io2r row) : (processRow s row).io2r = s.io2r := by
  by_cases hr : recognizedType (rowTyp row) = true
  · have hm : rowMaster s row = s.io2r (rowProj row) := by
      apply rowMaster_eq
      rcases h with h | h | h
      · rw [h] at hr
        cases hr
      · exact Or.inl h
      · exact Or.inr h
    rw [processRow_io2r_rec hr]
    funext p
    by_cases hp : p = rowProj row
    · subst hp
      simp [hm]
    · simp [hp]
  · rw [Bool.not_eq_true] at hr
    rw [processRow_not_rec hr]

theorem processRows_stable_all (rows : List RowRec) :
    ∀ (s : RunState) (r : RowRec), r ∈ rows →
      rowStable (processRows s rows).io2r r := by
  induction rows with
  | nil =>
    intro s r h
    simp at h
  | cons r0 rs ih =>
    intro s r h
    rw [processRows_cons]
    rcases List.mem_cons.1 h with rfl | hmem
    · exact processRows_stable_mono rs (rowStable_after s r)
    · exact ih (processRow s r0) r hmem

theorem processRows_io2r_of_stable (rows : List RowRec) :
    ∀ {s : RunState}, (∀ r ∈ rows, rowStable s.io2r r) →
      (processRows s rows).io2r = s.io2r := by
  induction rows with
  | nil => intro s _; rfl
  | cons r0 rs ih =>
    intro s h
    rw [processRows_cons]
    have heq : (processRow s r0).io2r = s.io2r :=
      processRow_io2r_of_stable (h r0 (List.mem_cons_self r0 rs))
    have hrest : ∀ r ∈ rs, rowStable (processRow s r0).io2r r := by
      intro r hr
      rw [heq]
      exact h r (List.mem_cons_of_mem r0 hr)
    rw [ih hrest, heq]

/-! ## Cleanliness: rows that cannot emit a conflict -/

theorem rowConflict_eq_none {s : RunState} {row : RowRec}
    (h : rowRegU row = "" ∨
      dictGet (s.io2r (rowProj row)) (rowPlcU row) = some (rowRegU row)) :
    rowConflict s row = none := by
  unfold rowConflict rowResolved
  rcases h with h | h
  · cases hm : dictGet (s.io2r (rowProj row)) (rowPlcU row) with
    | some v =>
      rw [h, reconcile_some_empty (rowPlcRaw row) (rowRegRaw row) hm]
    | none =>
      rw [h, reconcile_none_empty (rowPlcRaw row) (rowRegRaw row) hm]
  · rw [reconcile_some_match (rowPlcRaw row) (rowRegRaw row) h rfl]

theorem processRow_conflicts_of_clean {s : RunState} {row : RowRec}
    (h : rowClean s.io2r row) : (processRow s row).conflicts = s.conflicts := by
  rw [processRow_conflicts]
  rcases h with h | h | h
  · rw [h]
    simp
  · rw [rowConflict_eq_none (Or.inl h)]
    simp
  · rw [rowConflict_eq_none (Or.inr h)]
    simp

theorem rowClean_mono {s : RunState} {row r2 : RowRec}
    (h : rowClean s.io2r row) : rowClean (processRow s r2).io2r row := by
  rcases h with h | h | h
  · exact Or.inl h
  · exact Or.inr (Or.inl h)
  · exact Or.inr (Or.inr (processRow_get_mono h))

theorem processRows_clean_mono (rows : List RowRec) :
    ∀ {s : RunState} {row : RowRec}, rowClean s.io2r row →
      rowClean (processRows s rows).io2r row := by
  induction rows with
  | nil => intro s row h; exact h
  | cons r rs ih =>
    intro s row h
    rw [processRows_cons]
    exact ih (rowClean_mono h)

theorem rowClean_after {s : RunState} {row : RowRec}
    (h : rowConflict s row = none) : rowClean (processRow s row).io2r row := by
  by_cases hr : recognizedType (rowTyp row) = true
  · by_cases hreg : rowRegU row = ""
    · exact Or.inr (Or.inl hreg)
    · refine Or.inr (Or.inr ?_)
      rw [processRow_io2r_rec hr]
      simp only [eq_self_iff_true, if_true]
      unfold rowMaster rowResolved
      cases hm : dictGet (s.io2r (rowProj row)) (rowPlcU row) with
      | some v =>
        have hv : rowRegU row = v := by
          by_contra hne
          rw [rowConflict, rowResolved,
            reconcile_some_conflict (rowPlcRaw row) (rowRegRaw row) hm hreg hne]
            at h
          cases h
        rw [reconcile_master_of_some (rowPlcRaw row) (rowRegRaw row)
          (rowRegU row) hm, hm, hv]
      | none =>
        rw [reconcile_none_decl (rowPlcRaw row) (rowRegRaw row) hm hreg]
        simp [dictGet_dictSet_self]
  · rw [Bool.not_eq_true] at hr
    exact Or.inl hr

theorem processRows_conflicts_of_clean (rows : List RowRec) :
    ∀ {s : RunState}, (∀ r ∈ rows, rowClean s.io2r r) →
      (processRows s rows).conflicts = s.conflicts := by
  induction rows with
  | nil => intro s _; rfl
  | cons r0 rs ih =>
    intro s h
    rw [processRows_cons]
    have h0 := h r0 (List.mem_cons_self r0 rs)
    have hrest : ∀ r ∈ rs, rowClean (processRow s r0).io2r r :=
      fun r hr => rowClean_mono (h r (List.mem_cons_of_mem r0 hr))
    rw [ih hrest, processRow_conflicts_of_clean h0]

theorem processRows_conflicts_grow (rows : List RowRec) :
    ∀ (s : RunState), ∃ l, (processRows s rows).conflicts = s.conflicts ++ l := by
  induction rows with
  | nil =>
    intro s
    exact ⟨[], by simp [processRows_nil]⟩
  | cons r0 rs ih =>
    intro s
    obtain ⟨l, hl⟩ := ih (processRow s r0)
    rw [processRows_cons]
    refine ⟨(if recognizedType (rowTyp r0) = true then
      (rowConflict s r0).toList else []) ++ l, ?_⟩
    rw [hl, processRow_conflicts, List.append_assoc]

theorem processRows_clean_all (rows : List RowRec) :
    ∀ {s : RunState}, (processRows s rows).conflicts = s.conflicts →
      ∀ r ∈ rows, rowClean (processRows s rows).io2r r := by
  induction rows with
  | nil =>
    intro s _ r hr
    simp at hr
  | cons r0 rs ih =>
    intro s h r hr
    rw [processRows_cons] at h ⊢
    obtain ⟨l, hl⟩ := processRows_conflicts_grow rs (processRow s r0)
    rw [hl, processRow_conflicts, List.append_assoc] at h
    have hlen := congrArg List.length h
    simp only [List.length_append] at hlen
    have hx : (if recognizedType (rowTyp r0) = true then
        (rowConflict s r0).toList else []) = [] :=
      List.eq_nil_of_length_eq_zero (by omega)
    have hl0 : l = [] := List.eq_nil_of_length_eq_zero (by omega)
    rcases List.mem_cons.1 hr with rfl | hmem
    · have h0 : rowClean (processRow s r).io2r r := by
        by_cases ht : recognizedType (rowTyp r) = true
        · apply rowClean_after
          rw [if_pos ht] at hx
          cases hc : rowConflict s r with
          | none => rfl
          | some c =>
            rw [hc] at hx
            simp [Option.toList] at hx
        · rw [Bool.not_eq_true] at ht
          exact Or.inl ht
      exact processRows_clean_mono rs h0
    · apply ih ?_ r hmem
      rw [hl, hl0, List.append_nil]

theorem dispatch_rsym_empty (typ tag rlocU init desc plcU : String) :
    (dispatch typ tag "" rlocU init desc plcU).1 = none ∧
    (dispatch typ tag "" rlocU init desc plcU).2.1 = [] := by
  unfold dispatch
  by_cases h1 : inArea plcU = true
  · simp [h1]
  · by_cases h2 : outArea plcU = true <;> simp [h1, h2]

theorem rowRloc_of_none_empty {s : RunState} {row : RowRec}
    (hm : dictGet (s.io2r (rowProj row)) (rowPlcU row) = none)
    (hr : rowRegU row = "") : rowRloc s row = "" := by
  rw [rowRloc, rowResolved, hr, reconcile_none_empty (rowPlcRaw row) (rowRegRaw row) hm]

/-! ## Claim C1: conflict precedence -/

/-- Claim C1: for every row whose tag is already mapped in the project's
table to register A and which declares a register B with B ≠ A, the
reconciler resolves the row to A (the table's value), leaves the table
unchanged (the entry stays at A), and emits exactly one conflict warning
naming the tag, the row's register and the table's register. -/
theorem c1_conflict_precedence (s : RunState) (row : RowRec) (A : String)
    (ht : recognizedType (rowTyp row) = true)
    (hm : dictGet (s.io2r (rowProj row)) (rowPlcU row) = some A)
    (hne : rowRegU row ≠ "") (hBA : rowRegU row ≠ A) :
    rowRloc s row = A ∧
    (processRow s row).io2r = s.io2r ∧
    dictGet ((processRow s row).io2r (rowProj row)) (rowPlcU row) = some A ∧
    (processRow s row).conflicts =
      s.conflicts ++ [⟨rowPlcRaw row, rowRegRaw row, A⟩] := by
  have hrec := reconcile_some_conflict (rowPlcRaw row) (rowRegRaw row) hm hne hBA
  have h1 : rowRloc s row = A := by
    rw [rowRloc, rowResolved, hrec]
  have hio : (processRow s row).io2r = s.io2r := by
    rw [processRow_io2r_rec ht]
    funext p
    by_cases hp : p = rowProj row
    · subst hp
      simp only [eq_self_iff_true, if_true]
      rw [rowMaster, rowResolved, hrec]
    · simp [hp]
  refine ⟨h1, hio, ?_, ?_⟩
  · rw [hio]
    exact hm
  · rw [processRow_conflicts, if_pos ht, rowConflict, rowResolved, hrec]
    rfl

/-- Witness for C1 at a concrete state and row. -/
theorem c1_conflict_precedence_witness :
    rowRloc demoState demoRowConflict = "%R01017" ∧
    (processRow demoState demoRowConflict).io2r = demoState.io2r ∧
    (processRow demoState demoRowConflict).conflicts =
      [⟨"%I0001", "%R01020", "%R01017"⟩] := by
  have h := c1_conflict_precedence demoState demoRowConflict "%R01017"
    (by decide) (by decide) (by decide) (by decide)
  refine ⟨h.1, h.2.1, ?_⟩
  rw [h.2.2.2]
  rfl

/-! ## Claim C3: new-tag learning -/

theorem processRow_learns (s : RunState) (row : RowRec)
    (ht : recognizedType (rowTyp row) = true)
    (hm : dictGet (s.io2r (rowProj row)) (rowPlcU row) = none)
    (hne : rowRegU row ≠ "") :
    dictGet ((processRow s row).io2r (rowProj row)) (rowPlcU row) =
      some (rowRegU row) ∧
    (∀ k, k ≠ rowPlcU row →
      dictGet ((processRow s row).io2r (rowProj row)) k =
        dictGet (s.io2r (rowProj row)) k) ∧
    (∀ p, p ≠ rowProj row → (processRow s row).io2r p = s.io2r p) := by
  have hrec := reconcile_none_decl (rowPlcRaw row) (rowRegRaw row) hm hne
  have hmaster : rowMaster s row =
      dictSet (s.io2r (rowProj row)) (rowPlcU row) (rowRegU row) := by
    rw [rowMaster, rowResolved, hrec]
  refine ⟨?_, ?_, ?_⟩
  · rw [processRow_io2r_rec ht]
    simp only [eq_self_iff_true, if_true]
    rw [hmaster]
    exact dictGet_dictSet_self _ _ _
  · intro k hk
    rw [processRow_io2r_rec ht]
    simp only [eq_self_iff_true, if_true]
    rw [hmaster]
    exact dictGet_dictSet_ne _ _ hk
  · intro p hp
    rw [processRow_io2r_rec ht]
    simp [hp]

/-- Claim C3: for every row whose tag is absent from the project's table and
which declares a non-empty register B, processing the row adds the entry
tag→B to the table; no existing entry (and no other project's table) is
modified. -/
theorem c3_new_tag_learning (s : RunState) (row : RowRec) (B : String)
    (ht : recognizedType (rowTyp row) = true)
    (hm : dictGet (s.io2r (rowProj row)) (rowPlcU row) = none)
    (hB : rowRegU row = B) (hne : B ≠ "") :
    dictGet ((processRow s row).io2r (rowProj row)) (rowPlcU row) = some B ∧
    (∀ k, k ≠ rowPlcU row →
      dictGet ((processRow s row).io2r (rowProj row)) k =
        dictGet (s.io2r (rowProj row)) k) ∧
    (∀ p, p ≠ rowProj row → (processRow s row).io2r p = s.io2r p) := by
  subst hB
  exact processRow_learns s row ht hm hne

/-- Witness for C3 at a concrete state and row. -/
theorem c3_new_tag_learning_witness :
    dictGet ((processRow demoState demoRowNew).io2r (rowProj demoRowNew))
      (rowPlcU demoRowNew) = some "%R01021" ∧
    dictGet ((processRow demoState demoRowNew).io2r (rowProj demoRowNew))
      "%I0001" = dictGet (demoState.io2r (rowProj demoRowNew)) "%I0001" := by
  have h := c3_new_tag_learning demoState demoRowNew "%R01021"
    (by decide) (by decide) (by decide) (by decide)
  exact ⟨h.1, h.2.1 "%I0001" (by decide)⟩

/-! ## Claim C4: unresolvable rows are skipped without output -/

/-- Claim C4: a row whose tag is absent from the table and which declares no
register contributes no assignment line, no import record and no preset line
to any project's output, and leaves every table unchanged; processing
continues (the step is total and the next rows see the same state). -/
theorem c4_unresolvable_skip (s : RunState) (row : RowRec)
    (hm : dictGet (s.io2r (rowProj row)) (rowPlcU row) = none)
    (hr : rowRegU row = "") :
    (processRow s row).io2r = s.io2r ∧
    (∀ p, ((processRow s row).projects p).map = (s.projects p).map) ∧
    (∀ p, ((processRow s row).projects p).rvars = (s.projects p).rvars) ∧
    (∀ p, importRows ((processRow s row).projects p) =
      importRows (s.projects p)) ∧
    (∀ p, initLines ((processRow s row).projects p) =
      initLines (s.projects p)) := by
  by_cases ht : recognizedType (rowTyp row) = true
  · have hio : (processRow s row).io2r = s.io2r :=
      processRow_io2r_of_stable (Or.inr (Or.inl hr))
    have hd : (rowDispatch s row).1 = none ∧ (rowDispatch s row).2.1 = [] := by
      rw [rowDispatch, rowRsym, rowRloc_of_none_empty hm hr]
      exact dispatch_rsym_empty _ _ _ _ _ _
    have hP : ∀ p, (processRow s row).projects p = s.projects p := by
      intro p
      rw [processRow_projects_rec ht]
      by_cases hp : p = rowProj row
      · subst hp
        simp only [eq_self_iff_true, if_true]
        rw [applyDispatch, hd.1, hd.2]
        simp
      · simp [hp]
    exact ⟨hio, fun p => by rw [hP p], fun p => by rw [hP p],
      fun p => by rw [hP p], fun p => by rw [hP p]⟩
  · rw [Bool.not_eq_true] at ht
    rw [processRow_not_rec ht]
    exact ⟨rfl, fun p => rfl, fun p => rfl, fun p => rfl, fun p => rfl⟩

/-- Witness for C4 at a concrete state and row. -/
theorem c4_unresolvable_skip_witness :
    ((processRow demoState demoRowNoReg).projects "P1").map = [] ∧
    importRows ((processRow demoState demoRowNoReg).projects "P1") = [] ∧
    initLines ((processRow demoState demoRowNoReg).projects "P1") =
      ["(* AUTOGEN REGISTER PRESETS — call once on power-up *)"] ∧
    (processRow demoState demoRowNoReg).io2r = demoState.io2r := by
  have h := c4_unresolvable_skip demoState demoRowNoReg (by decide) (by decide)
  refine ⟨?_, ?_, ?_, h.1⟩
  · rw [h.2.1 "P1"]
    rfl
  · rw [h.2.2.2.1 "P1"]
    rfl
  · rw [h.2.2.2.2 "P1"]
    rfl

/-! ## Claim C2: idempotence of the reconciler -/

/-- Counterexample to C2 as stated: from the table {%I0001 → %R01017}, the
one-row sequence declaring %R01020 for %I0001 warns on the first pass and
warns again on the second pass (the second pass is not conflict-free). -/
theorem c2_idempotence_counterexample :
    (processRows (processRows demoState [demoRowConflict])
        [demoRowConflict]).conflicts ≠
      (processRows demoState [demoRowConflict]).conflicts := by
  decide

/-- Claim C2 (amended): re-processing an identical row sequence from the
resulting state leaves every project's table unchanged (a fixed point); and
whenever the first pass emitted no conflict warning, the second pass emits
none either.  (As stated the claim fails: a row sequence that conflicts
with the table warns on every pass, see the counterexample.) -/
theorem c2_idempotence_amended (s : RunState) (rows : List RowRec) :
    (processRows (processRows s rows) rows).io2r =
      (processRows s rows).io2r ∧
    ((processRows s rows).conflicts = s.conflicts →
      (processRows (processRows s rows) rows).conflicts =
        (processRows s rows).conflicts) := by
  constructor
  · exact processRows_io2r_of_stable rows
      (fun r hr => processRows_stable_all rows s r hr)
  · intro h
    exact processRows_conflicts_of_clean rows
      (fun r hr => processRows_clean_all rows h r hr)

/-- Witness for the amended C2 at a concrete conflict-free run. -/
theorem c2_idempotence_amended_witness :
    (processRows (processRows demoState [demoRowOk, demoRowNew])
        [demoRowOk, demoRowNew]).io2r =
      (processRows demoState [demoRowOk, demoRowNew]).io2r ∧
    (processRows (processRows demoState [demoRowOk, demoRowNew])
        [demoRowOk, demoRowNew]).conflicts =
      (processRows demoState [demoRowOk, demoRowNew]).conflicts := by
  have h := c2_idempotence_amended demoState [demoRowOk, demoRowNew]
  exact ⟨h.1, h.2 (by decide)⟩

/-! ## Claim C6: missing required columns abort the run -/

/-- Claim C6: if any required column is absent under whitespace- and
case-insensitive header matching, the run returns the descriptive error and
produces nothing (the error branch carries no state: no output file and no
updated table exists). -/
theorem c6_missing_columns_abort (headers : List String) (rows : List RowRec)
    (s : RunState) (h : ∃ kv ∈ NEEDED, kv.2 ∉ headers.map normHeader) :
    runCsv headers rows s =
      Except.error ("❌ CSV missing columns: " ++
        String.intercalate ", " (missingCols headers)) := by
  have hne : missingCols headers ≠ [] := by
    obtain ⟨kv, hkv, hnot⟩ := h
    intro hnil
    have hmem : kv.1 ∈ missingCols headers :=
      List.mem_filterMap.2 ⟨kv, hkv, by simp [hnot]⟩
    rw [hnil] at hmem
    cases hmem
  rw [runCsv, if_neg hne]

/-- Witness for C6: a header row missing six of the seven columns. -/
theorem c6_missing_columns_abort_witness :
    runCsv ["Name"] [] emptyState =
      Except.error "❌ CSV missing columns: proj, tag, reg, type, desc, init" := by
  rw [c6_missing_columns_abort ["Name"] [] emptyState
    ⟨("proj", "projectname"), by decide, by decide⟩]
  rfl

/-! ## Claim C7: the contiguous-range merger -/

theorem expandRuns_mergeRunsGo (rest : List (Nat × Nat)) :
    ∀ (r m cnt : Nat),
      expandRuns (mergeRunsGo r m cnt rest) =
        (List.range cnt).map (fun i => (r + i, m + i)) ++ rest := by
  induction rest with
  | nil =>
    intro r m cnt
    simp [mergeRunsGo, expandRuns]
  | cons p rest ih =>
    intro r m cnt
    rw [mergeRunsGo]
    by_cases h : p.1 = r + cnt ∧ p.2 = m + cnt
    · rw [if_pos h, ih, List.range_succ, List.map_append, List.append_assoc]
      rcases p with ⟨p1, p2⟩
      obtain ⟨h1, h2⟩ := h
      simp only at h1 h2
      subst h1
      subst h2
      simp
    · rw [if_neg h, expandRuns, ih]
      rcases p with ⟨p1, p2⟩
      simp [List.range_succ]

theorem expandRuns_mergeRuns (rows : List (Nat × Nat)) :
    expandRuns (mergeRuns rows) = rows := by
  cases rows with
  | nil => rfl
  | cons p rest =>
    rw [mergeRuns, expandRuns_mergeRunsGo]
    rcases p with ⟨p1, p2⟩
    simp [List.range_succ]

theorem mergeRunsGo_head (rest : List (Nat × Nat)) :
    ∀ r m cnt, ∃ c t, mergeRunsGo r m cnt rest = (r, m, c) :: t := by
  induction rest with
  | nil =>
    intro r m cnt
    exact ⟨cnt, [], rfl⟩
  | cons p rest ih =>
    intro r m cnt
    rw [mergeRunsGo]
    by_cases h : p.1 = r + cnt ∧ p.2 = m + cnt
    · rw [if_pos h]
      exact ih r m (cnt + 1)
    · rw [if_neg h]
      exact ⟨cnt, _, rfl⟩

theorem chain_mergeRunsGo (rest : List (Nat × Nat)) :
    ∀ r m cnt, List.Chain' (fun b1 b2 : Nat × Nat × Nat =>
        ¬(b2.1 = b1.1 + b1.2.2 ∧ b2.2.1 = b1.2.1 + b1.2.2))
      (mergeRunsGo r m cnt rest) := by
  induction rest with
  | nil =>
    intro r m cnt
    simp [mergeRunsGo]
  | cons p rest ih =>
    intro r m cnt
    rw [mergeRunsGo]
    by_cases h : p.1 = r + cnt ∧ p.2 = m + cnt
    · rw [if_pos h]
      exact ih r m (cnt + 1)
    · rw [if_neg h]
      obtain ⟨c, t, ht⟩ := mergeRunsGo_head rest p.1 p.2 1
      rw [ht, List.chain'_cons]
      refine ⟨by simpa using h, ?_⟩
      rw [← ht]
      exact ih p.1 p.2 1

theorem chain_mergeRuns (rows : List (Nat × Nat)) :
    List.Chain' (fun b1 b2 : Nat × Nat × Nat =>
      ¬(b2.1 = b1.1 + b1.2.2 ∧ b2.2.1 = b1.2.1 + b1.2.2)) (mergeRuns rows) := by
  cases rows with
  | nil => simp [mergeRuns]
  | cons p rest => exact chain_mergeRunsGo rest p.1 p.2 1

/-- Claim C7: the merger exactly run-length-encodes its input (decoding the
blocks restores the pair sequence), each encoded run is maximal (no block
continues where its predecessor stopped), and on the input
[(1017,1),(1018,2),(1019,3),(1025,9)] it yields exactly the two blocks
{start=1017, start_addr=1, count=3} and {start=1025, start_addr=9, count=1}. -/
theorem c7_range_merge :
    (∀ rows : List (Nat × Nat), expandRuns (mergeRuns rows) = rows) ∧
    (∀ rows : List (Nat × Nat), List.Chain' (fun b1 b2 : Nat × Nat × Nat =>
        ¬(b2.1 = b1.1 + b1.2.2 ∧ b2.2.1 = b1.2.1 + b1.2.2)) (mergeRuns rows)) ∧
    links [(1017, 1), (1018, 2), (1019, 3), (1025, 9)] =
      [⟨"R01017", "1", 3⟩, ⟨"R01025", "9", 1⟩] :=
  ⟨expandRuns_mergeRuns, chain_mergeRuns, by decide⟩

/-! ## Claim C8: the STRING literal formatter -/

/-- Counterexample to C8 as stated: on the value `a'b"c` the formatter
output does not wrap-and-double with the double quote (the wrapper it uses)
nor wrap-and-double with the single quote (the character it doubles) — the
wrapping character and the doubled character differ. -/
theorem c8_string_escape_counterexample :
    st_literal "STRING" "a'b\"c" ≠ specQuoteWrap dquote "a'b\"c" ∧
    st_literal "STRING" "a'b\"c" ≠ specQuoteWrap squote "a'b\"c" := by
  decide

/-- Claim C8 (amended): for every raw STRING initial value, the formatter
returns the stripped value wrapped in double quotes with every embedded
single quote doubled; the wrapping double quote itself is never escaped. -/
theorem c8_string_escape_amended (v : String) :
    st_literal "STRING" v =
      String.singleton dquote ++ doubleChar squote (pyStrip v) ++
        String.singleton dquote := by
  have key : ∀ l : List Char,
      l.foldr (fun c acc => if c = squote then squote :: squote :: acc else c :: acc)
          [dquote] =
        ((l.map (fun c => if c = squote then [squote, squote] else [c])).flatten)
          ++ [dquote] := by
    intro l
    induction l with
    | nil => rfl
    | cons c l ih =>
      by_cases hc : c = squote <;> simp [hc, ih]
  have hr : String.singleton dquote ++ doubleChar squote (pyStrip v) ++
      String.singleton dquote =
      ⟨dquote :: ((((pyStrip v).data.map
        (fun c => if c = squote then [squote, squote] else [c])).flatten)
          ++ [dquote])⟩ := rfl
  rw [hr]
  show (⟨dquote :: ((pyStrip v).data.foldr
    (fun c acc => if c = squote then squote :: squote :: acc else c :: acc)
    [dquote])⟩ : String) = _
  rw [key]

/-! ## Claim C5: persistence round-trip -/

theorem insertLe_perm {α : Type} (le : α → α → Bool) (x : α) (l : List α) :
    (insertLe le x l).Perm (x :: l) := by
  induction l with
  | nil => exact List.Perm.refl _
  | cons y ys ih =>
    rw [insertLe]
    by_cases h : le x y = true
    · rw [if_pos h]
    · rw [if_neg h]
      exact (ih.cons y).trans (List.Perm.swap x y ys)

theorem sortBy_perm {α : Type} (le : α → α → Bool) (l : List α) :
    (sortBy le l).Perm l := by
  induction l with
  | nil => exact List.Perm.refl _
  | cons x xs ih =>
    rw [sortBy]
    exact (insertLe_perm le x (sortBy le xs)).trans (ih.cons x)

theorem loadMap_foldl (l : List (String × String)) :
    ∀ acc, (∀ pr ∈ l, pr.1 ≠ "" ∧ pr.2 ≠ "" ∧
        pyStrip pr.1 = pr.1 ∧ pyUpper pr.1 = pr.1 ∧
        pyStrip pr.2 = pr.2 ∧ pyUpper pr.2 = pr.2) →
      ((acc ++ l).map Prod.fst).Nodup →
      l.foldl (fun d pr =>
        if pr.1 ≠ "" ∧ pr.2 ≠ "" then
          dictSet d (pyUpper (pyStrip pr.1)) (pyUpper (pyStrip pr.2))
        else d) acc = acc ++ l := by
  induction l with
  | nil =>
    intro acc _ _
    simp
  | cons p l ih =>
    intro acc hok hnd
    obtain ⟨h1, h2, h3, h4, h5, h6⟩ := hok p (List.mem_cons_self p l)
    rw [List.foldl_cons]
    have hgetnone : dictGet acc p.1 = none := by
      rw [dictGet_eq_none_iff]
      intro hmem
      rw [List.map_append, List.nodup_append] at hnd
      exact hnd.2.2 hmem (by simp)
    have hstep : (if p.1 ≠ "" ∧ p.2 ≠ "" then
        dictSet acc (pyUpper (pyStrip p.1)) (pyUpper (pyStrip p.2)) else acc) =
        acc ++ [p] := by
      rw [if_pos ⟨h1, h2⟩, h3, h4, h5, h6]
      exact dictSet_of_get_none p.2 hgetnone
    rw [hstep]
    have hre : (acc ++ [p]) ++ l = acc ++ p :: l := by simp
    rw [ih (acc ++ [p]) (fun pr hpr => hok pr (List.mem_cons_of_mem p hpr))
      (by rw [hre]; exact hnd)]
    simp

/-- Counterexample to C5 as stated: the mapping {"A " → "R1"} has
uppercased, non-empty tag and register, yet loading what was saved does not
reproduce its association (the loader strips the trailing blank). -/
theorem c5_roundtrip_counterexample :
    (∀ pr ∈ [("A ", "R1")], pr.1 ≠ "" ∧ pr.2 ≠ "" ∧
      pyUpper pr.1 = pr.1 ∧ pyUpper pr.2 = pr.2) ∧
    dictGet (loadMap (savedPairs [("A ", "R1")])) "A " ≠
      dictGet [("A ", "R1")] "A " := by
  decide

/-- Claim C5 (amended): for every in-memory project mapping whose tags and
registers are non-empty, trimmed and uppercased (with pairwise-distinct
tags, the dict invariant), writing the per-project map file and loading it
back reproduces exactly the same tag→register associations.  (As stated the
claim fails for untrimmed tags, see the counterexample: the loader
re-strips what it reads.) -/
theorem c5_roundtrip_amended (m : List (String × String))
    (hnd : (m.map Prod.fst).Nodup)
    (hok : ∀ pr ∈ m, pr.1 ≠ "" ∧ pr.2 ≠ "" ∧
      pyStrip pr.1 = pr.1 ∧ pyUpper pr.1 = pr.1 ∧
      pyStrip pr.2 = pr.2 ∧ pyUpper pr.2 = pr.2) :
    ∀ t, dictGet (loadMap (savedPairs m)) t = dictGet m t := by
  intro t
  have hperm : (savedPairs m).Perm m := sortBy_perm pairLe m
  have hnd2 : ((savedPairs m).map Prod.fst).Nodup :=
    ((hperm.map Prod.fst).nodup_iff).2 hnd
  have hok2 : ∀ pr ∈ savedPairs m, pr.1 ≠ "" ∧ pr.2 ≠ "" ∧
      pyStrip pr.1 = pr.1 ∧ pyUpper pr.1 = pr.1 ∧
      pyStrip pr.2 = pr.2 ∧ pyUpper pr.2 = pr.2 :=
    fun pr hpr => hok pr (hperm.mem_iff.1 hpr)
  have hload : loadMap (savedPairs m) = savedPairs m := by
    rw [loadMap]
    have := loadMap_foldl (savedPairs m) [] hok2 (by simpa using hnd2)
    simpa using this
  rw [hload]
  exact dictGet_eq_of_perm hperm hnd2 t

/-- Witness for the amended C5 at a concrete two-entry mapping. -/
theorem c5_roundtrip_amended_witness :
    ((([("%I0001", "%R01017"), ("B", "R2")] : List (String × String)).map
      Prod.fst).Nodup) ∧
    dictGet (loadMap (savedPairs [("%I0001", "%R01017"), ("B", "R2")])) "B" =
      dictGet [("%I0001", "%R01017"), ("B", "R2")] "B" :=
  ⟨by decide, c5_roundtrip_amended _ (by decide) (by decide) "B"⟩

/-! ## Claim C9: learning happens even for rows with no recognized area -/

theorem dispatch_no_area (typ tag r_sym rlocU init desc plcU : String)
    (hin : inArea plcU = false) (hout : outArea plcU = false) :
    dispatch typ tag r_sym rlocU init desc plcU = (none, [], false) := by
  unfold dispatch
  simp [hin, hout]

/-- Claim C9: a row with recognized type, a declared register, a tag absent
from the table and no recognized address-area marker on the tag contributes
nothing to any project's outputs, yet the table still gains tag→B, the
entry survives the remaining rows, and it is written to the project's saved
map at end of run. -/
theorem c9_silent_learning (s : RunState) (row : RowRec) (B : String)
    (rest : List RowRec)
    (ht : recognizedType (rowTyp row) = true)
    (hm : dictGet (s.io2r (rowProj row)) (rowPlcU row) = none)
    (hB : rowRegU row = B) (hne : B ≠ "")
    (hin : inArea (rowPlcU row) = false)
    (hout : outArea (rowPlcU row) = false) :
    (∀ p, (processRow s row).projects p = s.projects p) ∧
    dictGet ((processRow s row).io2r (rowProj row)) (rowPlcU row) = some B ∧
    dictGet ((processRows (processRow s row) rest).io2r (rowProj row))
      (rowPlcU row) = some B ∧
    (rowPlcU row, B) ∈ savedPairs
      ((processRows (processRow s row) rest).io2r (rowProj row)) := by
  subst hB
  have hlearn := processRow_learns s row ht hm hne
  have hP : ∀ p, (processRow s row).projects p = s.projects p := by
    intro p
    rw [processRow_projects_rec ht]
    by_cases hp : p = rowProj row
    · subst hp
      simp only [eq_self_iff_true, if_true]
      rw [rowDispatch, dispatch_no_area _ _ _ _ _ _ _ hin hout, applyDispatch]
      simp
    · simp [hp]
  have hkeep : dictGet ((processRows (processRow s row) rest).io2r
      (rowProj row)) (rowPlcU row) = some (rowRegU row) :=
    processRows_get_mono rest hlearn.1
  refine ⟨hP, hlearn.1, hkeep, ?_⟩
  exact ((sortBy_perm pairLe _).mem_iff).2 (mem_of_dictGet_some hkeep)

/-- Witness for C9 at a concrete state, row and remaining row list. -/
theorem c9_silent_learning_witness :
    ((processRow demoState demoRowPlain).projects "P1").map = [] ∧
    dictGet ((processRows (processRow demoState demoRowPlain)
      [demoRowNew]).io2r (rowProj demoRowPlain)) (rowPlcU demoRowPlain) =
      some "%R02000" ∧
    (rowPlcU demoRowPlain, "%R02000") ∈ savedPairs
      ((processRows (processRow demoState demoRowPlain)
        [demoRowNew]).io2r (rowProj demoRowPlain)) := by
  have h := c9_silent_learning demoState demoRowPlain "%R02000" [demoRowNew]
    (by decide) (by decide) (by decide) (by decide) (by decide) (by decide)
  refine ⟨?_, h.2.2.1, h.2.2.2⟩
  rw [h.1 "P1"]
  rfl

/-! ## Order lemmas for the Python comparisons -/

theorem charToNat_inj {a b : Char} (h : a.toNat = b.toNat) : a = b := by
  have hv : a.val = b.val := by
    unfold Char.toNat at h
    unfold UInt32.toNat at h
    exact UInt32.eq_of_val_eq (Fin.eq_of_val_eq h)
  exact Char.eq_of_val_eq hv

theorem stringDataInj {a b : String} (h : a.data = b.data) : a = b := by
  cases a
  cases b
  exact congrArg String.mk h

theorem strLeB_trans : ∀ (x y z : List Char), strLeB x y = true →
    strLeB y z = true → strLeB x z = true := by
  intro x
  induction x with
  | nil =>
    intro y z _ _
    rfl
  | cons a as ih =>
    intro y z h1 h2
    cases y with
    | nil => simp [strLeB] at h1
    | cons b bs =>
      cases z with
      | nil => simp [strLeB] at h2
      | cons c cs =>
        rw [strLeB] at h1 h2 ⊢
        rcases Nat.lt_trichotomy a.toNat b.toNat with hab | hab | hab
        · rcases Nat.lt_trichotomy b.toNat c.toNat with hbc | hbc | hbc
          · simp [Nat.lt_trans hab hbc]
          · simp [hbc ▸ hab]
          · simp [Nat.lt_asymm hbc, hbc] at h2
        · rw [hab] at h1
          simp only [Nat.lt_irrefl, if_false] at h1
          rcases Nat.lt_trichotomy b.toNat c.toNat with hbc | hbc | hbc
          · simp [hab ▸ hbc]
          · rw [hbc] at h2 hab
            simp only [Nat.lt_irrefl, if_false] at h2
            simp [hab, Nat.lt_irrefl, ih bs cs h1 h2]
          · simp [Nat.lt_asymm hbc, hbc] at h2
        · simp [Nat.lt_asymm hab, hab] at h1

theorem strLtB_trans : ∀ (x y z : List Char), strLtB x y = true →
    strLtB y z = true → strLtB x z = true := by
  intro x
  induction x with
  | nil =>
    intro y z h1 h2
    cases y with
    | nil => simp [strLtB] at h1
    | cons b bs =>
      cases z with
      | nil => simp [strLtB] at h2
      | cons c cs => rfl
  | cons a as ih =>
    intro y z h1 h2
    cases y with
    | nil => simp [strLtB] at h1
    | cons b bs =>
      cases z with
      | nil => simp [strLtB] at h2
      | cons c cs =>
        rw [strLtB] at h1 h2 ⊢
        rcases Nat.lt_trichotomy a.toNat b.toNat with hab | hab | hab
        · rcases Nat.lt_trichotomy b.toNat c.toNat with hbc | hbc | hbc
          · simp [Nat.lt_trans hab hbc]
          · simp [hbc ▸ hab]
          · simp [Nat.lt_asymm hbc, hbc] at h2
        · rw [hab] at h1
          simp only [Nat.lt_irrefl, if_false] at h1
          rcases Nat.lt_trichotomy b.toNat c.toNat with hbc | hbc | hbc
          · simp [hab ▸ hbc]
          · rw [hbc] at h2 hab
            simp only [Nat.lt_irrefl, if_false] at h2
            simp [hab, Nat.lt_irrefl, ih bs cs h1 h2]
          · simp [Nat.lt_asymm hbc, hbc] at h2
        · simp [Nat.lt_asymm hab, hab] at h1

theorem strLtB_asymm : ∀ (x y : List Char), strLtB x y = true →
    strLtB y x = true → False := by
  intro x
  induction x with
  | nil =>
    intro y h1 h2
    cases y with
    | nil => simp [strLtB] at h1
    | cons b bs => simp [strLtB] at h2
  | cons a as ih =>
    intro y h1 h2
    cases y with
    | nil => simp [strLtB] at h1
    | cons b bs =>
      rw [strLtB] at h1 h2
      rcases Nat.lt_trichotomy a.toNat b.toNat with hab | hab | hab
      · simp [Nat.lt_asymm hab, hab] at h2
      · rw [hab] at h1 h2
        simp only [Nat.lt_irrefl, if_false] at h1 h2
        exact ih bs h1 h2
      · simp [Nat.lt_asymm hab, hab] at h1

theorem strLeB_total : ∀ (x y : List Char), (strLeB x y || strLeB y x) = true := by
  intro x
  induction x with
  | nil =>
    intro y
    simp [strLeB]
  | cons a as ih =>
    intro y
    cases y with
    | nil => simp [strLeB]
    | cons b bs =>
      rw [strLeB, strLeB]
      rcases Nat.lt_trichotomy a.toNat b.toNat with h | h | h
      · simp [h]
      · rw [h]
        simp [Nat.lt_irrefl, ih bs]
      · simp [h, Nat.lt_asymm h]

theorem strLtB_total_of_ne : ∀ (x y : List Char), x ≠ y →
    (strLtB x y || strLtB y x) = true := by
  intro x
  induction x with
  | nil =>
    intro y hne
    cases y with
    | nil => exact absurd rfl hne
    | cons b bs => simp [strLtB]
  | cons a as ih =>
    intro y hne
    cases y with
    | nil => simp [strLtB]
    | cons b bs =>
      rw [strLtB, strLtB]
      rcases Nat.lt_trichotomy a.toNat b.toNat with h | h | h
      · simp [h]
      · have hab : a = b := charToNat_inj h
        subst hab
        have hne2 : as ≠ bs := by
          intro hc
          exact hne (by rw [hc])
        simp [Nat.lt_irrefl, ih bs hne2]
      · simp [h, Nat.lt_asymm h]

theorem lexB_trans {x y z : String} {r1 r2 r3 : Bool}
    (hr : r1 = true → r2 = true → r3 = true)
    (h1 : lexB x y r1 = true) (h2 : lexB y z r2 = true) :
    lexB x z r3 = true := by
  unfold lexB at h1 h2 ⊢
  by_cases hxy : x = y
  · subst hxy
    by_cases hxz : x = z
    · subst hxz
      rw [if_pos rfl] at h1 h2 ⊢
      exact hr h1 h2
    · rw [if_pos rfl] at h1
      rw [if_neg hxz] at h2 ⊢
      exact h2
  · by_cases hyz : y = z
    · subst hyz
      rw [if_neg hxy] at h1 ⊢
      exact h1
    · rw [if_neg hxy] at h1
      rw [if_neg hyz] at h2
      have hlt : strLt x z = true := strLtB_trans x.data y.data z.data h1 h2
      have hxz : x ≠ z := by
        intro hc
        subst hc
        exact strLtB_asymm x.data y.data h1 h2
      rw [if_neg hxz]
      exact hlt

theorem lexB_total {x y : String} {r1 r2 : Bool} (hr : (r1 || r2) = true) :
    (lexB x y r1 || lexB y x r2) = true := by
  unfold lexB
  by_cases hxy : x = y
  · subst hxy
    rw [if_pos rfl, if_pos rfl]
    exact hr
  · rw [if_neg hxy, if_neg (Ne.symm hxy)]
    exact strLtB_total_of_ne x.data y.data (fun h => hxy (stringDataInj h))

theorem rvarLe_trans (a b c : RVar) (h1 : rvarLe a b = true)
    (h2 : rvarLe b c = true) : rvarLe a c = true := by
  unfold rvarLe at h1 h2 ⊢
  refine lexB_trans (fun p1 p2 => ?_) h1 h2
  refine lexB_trans (fun q1 q2 => ?_) p1 p2
  refine lexB_trans (fun u1 u2 => ?_) q1 q2
  refine lexB_trans (fun t1 t2 => ?_) u1 u2
  exact strLeB_trans _ _ _ t1 t2

theorem rvarLe_total (a b : RVar) : (rvarLe a b || rvarLe b a) = true := by
  unfold rvarLe
  refine lexB_total (lexB_total (lexB_total (lexB_total ?_)))
  exact strLeB_total _ _

theorem pairwise_insertLe {α : Type} {le : α → α → Bool}
    (htrans : ∀ a b c, le a b = true → le b c = true → le a c = true)
    (htotal : ∀ a b, (le a b || le b a) = true)
    {x : α} {l : List α} (hl : l.Pairwise (fun a b => le a b = true)) :
    (insertLe le x l).Pairwise (fun a b => le a b = true) := by
  induction l with
  | nil => simp [insertLe]
  | cons y ys ih =>
    rw [insertLe]
    by_cases h : le x y = true
    · rw [if_pos h, List.pairwise_cons]
      refine ⟨?_, hl⟩
      intro z hz
      rcases List.mem_cons.1 hz with rfl | hz2
      · exact h
      · exact htrans x y z h ((List.pairwise_cons.1 hl).1 z hz2)
    · rw [if_neg h]
      rw [List.pairwise_cons] at hl
      rw [List.pairwise_cons]
      refine ⟨?_, ih hl.2⟩
      intro z hz
      have hz' := (insertLe_perm le x ys).mem_iff.1 hz
      rcases List.mem_cons.1 hz' with heq | hz2
      · subst heq
        have htot := htotal z y
        rw [Bool.or_eq_true] at htot
        rcases htot with hxy | hyx
        · exact absurd hxy h
        · exact hyx
      · exact hl.1 z hz2

theorem pairwise_sortBy {α : Type} {le : α → α → Bool}
    (htrans : ∀ a b c, le a b = true → le b c = true → le a c = true)
    (htotal : ∀ a b, (le a b || le b a) = true) (l : List α) :
    (sortBy le l).Pairwise (fun a b => le a b = true) := by
  induction l with
  | nil => simp [sortBy]
  | cons x xs ih =>
    rw [sortBy]
    exact pairwise_insertLe htrans htotal ih

/-! ## Claim C10: one import record per register, last row wins, sorted -/

theorem mem_dictSet {κ α : Type} [DecidableEq κ] {d : List (κ × α)}
    {k : κ} {v : α} : ∀ {z}, z ∈ dictSet d k v → z = (k, v) ∨ z ∈ d := by
  induction d with
  | nil =>
    intro z hz
    rw [dictSet] at hz
    exact Or.inl (List.mem_singleton.1 hz)
  | cons p d ih =>
    intro z hz
    rw [dictSet] at hz
    by_cases hp : p.1 = k
    · rw [if_pos hp] at hz
      rcases List.mem_cons.1 hz with heq | hz2
      · exact Or.inl heq
      · exact Or.inr (List.mem_cons_of_mem p hz2)
    · rw [if_neg hp] at hz
      rcases List.mem_cons.1 hz with heq | hz2
      · exact Or.inr (heq ▸ List.mem_cons_self p d)
      · rcases ih hz2 with h | h
        · exact Or.inl h
        · exact Or.inr (List.mem_cons_of_mem p h)

theorem dispatch_ins_shape (typ tag r_sym rlocU init desc plcU : String)
    {k : String} {v : RVar}
    (h : (dispatch typ tag r_sym rlocU init desc plcU).1 = some (k, v)) :
    k = r_sym ∧ v = ⟨r_sym, rlocU, tag, typ, init⟩ := by
  have hsh : (dispatch typ tag r_sym rlocU init desc plcU).1 = none ∨
      (dispatch typ tag r_sym rlocU init desc plcU).1 =
        some (r_sym, ⟨r_sym, rlocU, tag, typ, init⟩) := by
    unfold dispatch
    split_ifs <;> simp
  rcases hsh with h0 | h0 <;> rw [h0] at h
  · exact Option.noConfusion h
  · simp only [Option.some.injEq, Prod.mk.injEq] at h
    exact ⟨h.1.symm, h.2.symm⟩

theorem rvarsWF_processRow {s : RunState} {row : RowRec} {p : String}
    (h : rvarsWF (s.projects p)) : rvarsWF ((processRow s row).projects p) := by
  by_cases ht : recognizedType (rowTyp row) = true
  · rw [processRow_projects_rec ht]
    by_cases hp : p = rowProj row
    · subst hp
      simp only [eq_self_iff_true, if_true]
      rw [applyDispatch]
      cases hd : (rowDispatch s row).1 with
      | none => exact ⟨h.1, h.2⟩
      | some kv =>
        rcases kv with ⟨k, v⟩
        rw [rowDispatch] at hd
        obtain ⟨hk, hv⟩ := dispatch_ins_shape _ _ _ _ _ _ _ hd
        constructor
        · exact nodup_keys_dictSet h.1 _ _
        · intro z hz
          rcases mem_dictSet hz with heq | hz2
          · rw [heq, hv, hk]
          · exact h.2 z hz2
    · simp only [if_neg hp]
      exact h
  · rw [Bool.not_eq_true] at ht
    rw [processRow_not_rec ht]
    exact h

theorem sorted_rsym_of_wf (P : ProjOut) (hwf : rvarsWF P) :
    ((sortedRVars P).map RVar.r_sym).Pairwise (fun a b => strLt a b = true) := by
  have hpw : (sortedRVars P).Pairwise (fun a b => rvarLe a b = true) :=
    pairwise_sortBy rvarLe_trans rvarLe_total _
  have hmapeq : (P.rvars.map Prod.snd).map RVar.r_sym = P.rvars.map Prod.fst := by
    rw [List.map_map]
    exact List.map_congr_left (fun kv hkv => hwf.2 kv hkv)
  have hperm : ((sortedRVars P).map RVar.r_sym).Perm (P.rvars.map Prod.fst) := by
    rw [← hmapeq]
    exact (sortBy_perm rvarLe (P.rvars.map Prod.snd)).map RVar.r_sym
  have hnd : ((sortedRVars P).map RVar.r_sym).Nodup := hperm.nodup_iff.2 hwf.1
  have hne : (sortedRVars P).Pairwise (fun a b => a.r_sym ≠ b.r_sym) :=
    List.pairwise_map.1 hnd
  have hle : (sortedRVars P).Pairwise
      (fun a b => rvarLe a b = true ∧ a.r_sym ≠ b.r_sym) := hpw.and hne
  rw [List.pairwise_map]
  refine hle.imp ?_
  intro a b hab
  have h1 := hab.1
  unfold rvarLe lexB at h1
  rw [if_neg hab.2] at h1
  exact h1

/-- Claim C10: per project, the rvars dict stays well-formed (pairwise
distinct register symbols, each tuple keyed by its own symbol), the import
record set and the init block are both one record per entry of the sorted
rvar list whose register symbols are strictly increasing (hence at most one
record per destination register in either output), and when a row inserts a
record at a register symbol it overwrites any earlier record there (the
last such row wins) while records at other symbols are untouched. -/
theorem c10_import_records (s : RunState) (row : RowRec) (p : String)
    (hwf : rvarsWF (s.projects p)) :
    rvarsWF ((processRow s row).projects p) ∧
    ((sortedRVars ((processRow s row).projects p)).map RVar.r_sym).Pairwise
      (fun a b => strLt a b = true) ∧
    importRows ((processRow s row).projects p) =
      (sortedRVars ((processRow s row).projects p)).map buildImportRow ∧
    initLines ((processRow s row).projects p) =
      "(* AUTOGEN REGISTER PRESETS — call once on power-up *)" ::
        (sortedRVars ((processRow s row).projects p)).map initLineOf ∧
    (recognizedType (rowTyp row) = true → p = rowProj row →
      (∀ k v, (rowDispatch s row).1 = some (k, v) →
        dictGet ((processRow s row).projects p).rvars k = some v) ∧
      (∀ k, (∀ v, (rowDispatch s row).1 ≠ some (k, v)) →
        dictGet ((processRow s row).projects p).rvars k =
          dictGet (s.projects p).rvars k)) := by
  have hwf2 : rvarsWF ((processRow s row).projects p) := rvarsWF_processRow hwf
  refine ⟨hwf2, sorted_rsym_of_wf _ hwf2, rfl, rfl, ?_⟩
  intro ht hp
  subst hp
  rw [processRow_projects_rec ht]
  simp only [eq_self_iff_true, if_true]
  constructor
  · intro k v hins
    rw [applyDispatch]
    cases hd : (rowDispatch s row).1 with
    | none =>
      rw [hd] at hins
      exact Option.noConfusion hins
    | some kv =>
      rw [hd] at hins
      simp only [Option.some.injEq] at hins
      rw [hins]
      exact dictGet_dictSet_self _ _ _
  · intro k hnot
    rw [applyDispatch]
    cases hd : (rowDispatch s row).1 with
    | none => rfl
    | some kv =>
      rcases kv with ⟨k2, v2⟩
      have hk2 : k ≠ k2 := by
        intro hc
        exact hnot v2 (by rw [hd, hc])
      exact dictGet_dictSet_ne _ _ hk2

/-- Witness for C10: two rows resolving to the same register — the final
record carries the second row's data. -/
theorem c10_import_records_witness :
    rvarsWF ((processRow (processRow emptyState demoRowOk)
      demoRowOk2).projects "P1") ∧
    ((sortedRVars ((processRow (processRow emptyState demoRowOk)
      demoRowOk2).projects "P1")).map RVar.r_sym).Pairwise
      (fun a b => strLt a b = true) ∧
    dictGet ((processRow (processRow emptyState demoRowOk)
        demoRowOk2).projects "P1").rvars "R01017" =
      some ⟨"R01017", "%R01017", "PUMP2", "WORD", "7"⟩ := by
  have h := c10_import_records (processRow emptyState demoRowOk) demoRowOk2
    "P1" (by constructor <;> decide)
  refine ⟨h.1, h.2.1, ?_⟩
  exact (h.2.2.2.2 (by decide) (by decide)).1 "R01017"
    ⟨"R01017", "%R01017", "PUMP2", "WORD", "7"⟩ (by decide)

end StrpMirror
